/-
Verification of the invoice-field extraction engine and the case-processing
pipeline of this repository (parser_Invoicev2.py, Mega_Help_Scriptv2.py,
Google_add_string_Hv2-1.py, make_case_dir_v2-1.py).

Texts are modelled as `List Char` (the ASCII fragment of Python `str` that the
pipeline manipulates).  Each Python regular expression used by the source is
translated into a dedicated backtracking scanner that reproduces `re.search`
semantics (leftmost start position, greedy/lazy quantifiers with backtracking)
for that concrete pattern.  Python `float` values are modelled as `ℚ`: every
amount the source compares or rounds is a decimal with at most two fractional
digits, for which the rational value is the faithful observable.
-/

import Mathlib

set_option maxRecDepth 4000

namespace InvoicePipeline

/-! ### Character classes (ASCII fragment of Python's `\d`, `\s`, `\w`) -/

/-- Python `\d` on the ASCII texts handled by the pipeline. -/
def isDigitC (c : Char) : Bool := '0' ≤ c && c ≤ '9'

/-- Python `\s` (ASCII whitespace ` \t\n\r\x0b\x0c`). -/
def isSpaceC (c : Char) : Bool :=
  c = ' ' || c = '\t' || c = '\n' || c = '\r' || c = '\x0b' || c = '\x0c'

/-- Python `\w` (ASCII word characters), used for `\b` word boundaries. -/
def isWordC (c : Char) : Bool :=
  isDigitC c || ('a' ≤ c && c ≤ 'z') || ('A' ≤ c && c ≤ 'Z') || c = '_'

/-- ASCII lower-casing, for the `re.I` (case-insensitive) flag. -/
def lowC (c : Char) : Char :=
  if 'A' ≤ c && c ≤ 'Z' then Char.ofNat (c.toNat + 32) else c

/-- Case-insensitive literal match: `pat` is given in lower case; on success
return the remaining input. -/
def matchCI (pat : List Char) (cs : List Char) : Option (List Char) :=
  match pat, cs with
  | [], cs => some cs
  | _ :: _, [] => none
  | p :: ps, c :: cs => if lowC c = p then matchCI ps cs else none

/-- Case-sensitive literal match. -/
def matchLit (pat : List Char) (cs : List Char) : Option (List Char) :=
  match pat, cs with
  | [], cs => some cs
  | _ :: _, [] => none
  | p :: ps, c :: cs => if c = p then matchLit ps cs else none

/-- `span p cs = (takeWhile p cs, dropWhile p cs)`. -/
def spanP (p : Char → Bool) : List Char → List Char × List Char
  | [] => ([], [])
  | c :: cs =>
    if p c then
      let r := spanP p cs
      (c :: r.1, r.2)
    else ([], c :: cs)

/-- Number of leading characters satisfying `p`. -/
def countP (p : Char → Bool) (cs : List Char) : Nat := (spanP p cs).1.length

/-- Digit list to the natural number it denotes (Python `int` of a digit string). -/
def digitsToNat (ds : List Char) : Nat :=
  ds.foldl (fun a c => a * 10 + (c.toNat - '0'.toNat)) 0

/-- Generic `re.search` driver: try the anchored matcher `f` at every start
position from the left; the first position where `f` succeeds wins. -/
def searchFrom (f : List Char → Option α) : List Char → Option α
  | [] => f []
  | c :: cs =>
    match f (c :: cs) with
    | some g => some g
    | none => searchFrom f cs

/-! ### `_RE_DATE = (\d{1,2})/(\d{1,2})/(\d{4})` -/

/-- Candidates for greedy `\d{1,2}` at the current position, in the order the
backtracking engine tries them (two digits first, then one). -/
def digits12 (cs : List Char) : List (List Char × List Char) :=
  match cs with
  | a :: b :: rest =>
    if isDigitC a && isDigitC b then [([a, b], rest), ([a], b :: rest)]
    else if isDigitC a then [([a], b :: rest)] else []
  | [a] => if isDigitC a then [([a], [])] else []
  | [] => []

/-- Exactly four digits (`\d{4}`). -/
def digits4 (cs : List Char) : Option (List Char × List Char) :=
  match cs with
  | a :: b :: c :: d :: rest =>
    if isDigitC a && isDigitC b && isDigitC c && isDigitC d then
      some ([a, b, c, d], rest)
    else none
  | _ => none

/-- First success of `f` over a list of backtracking alternatives. -/
def firstSome (f : α → Option β) : List α → Option β
  | [] => none
  | a :: as =>
    match f a with
    | some b => some b
    | none => firstSome f as

/-- Anchored match of `(\d{1,2})/(\d{1,2})/(\d{4})`, returning the three
captured groups as numbers `(month, day, year)` in source order. -/
def matchDateAt (cs : List Char) : Option (Nat × Nat × Nat) :=
  firstSome (fun (g1, r1) =>
    match r1 with
    | '/' :: r2 =>
      firstSome (fun (g2, r3) =>
        match r3 with
        | '/' :: r4 =>
          match digits4 r4 with
          | some (g3, _) => some (digitsToNat g1, digitsToNat g2, digitsToNat g3)
          | none => none
        | _ => none) (digits12 r2)
    | _ => none) (digits12 cs)

/-- `_RE_DATE.search`. -/
def searchDate : List Char → Option (Nat × Nat × Nat) := searchFrom matchDateAt

/-! ### Calendar validation (`datetime(yyyy, mm, dd)`) and `date.isoformat()` -/

def isLeapYear (y : Nat) : Bool := y % 4 = 0 && (y % 100 ≠ 0 || y % 400 = 0)

def daysInMonth (y m : Nat) : Nat :=
  if m = 2 then (if isLeapYear y then 29 else 28)
  else if m = 4 || m = 6 || m = 9 || m = 11 then 30
  else 31

/-- Whether `datetime(y, m, d)` succeeds (`MINYEAR = 1`, `MAXYEAR = 9999`). -/
def pyDateValid (y m d : Nat) : Bool :=
  1 ≤ y && y ≤ 9999 && 1 ≤ m && m ≤ 12 && 1 ≤ d && d ≤ daysInMonth y m

/-- Fixed-width zero-padded decimal rendering of `n` (`w` digits). -/
def padNat (w n : Nat) : List Char :=
  let rec go : Nat → Nat → List Char
    | 0, _ => []
    | k + 1, n => go k (n / 10) ++ [Char.ofNat ('0'.toNat + n % 10)]
  go w n

/-- `date(y, m, d).isoformat()` = `YYYY-MM-DD`. -/
def isoFormat (y m d : Nat) : List Char :=
  padNat 4 y ++ '-' :: padNat 2 m ++ '-' :: padNat 2 d

/-- Step 3 of `parse_invoice`: first `M/D/YYYY` substring, interpreted as
month/day/year, `None` when the triple is not a valid calendar date. -/
def dateField (t : List Char) : Option (List Char) :=
  match searchDate t with
  | some (mm, dd, yyyy) =>
    if pyDateValid yyyy mm dd then some (isoFormat yyyy mm dd) else none
  | none => none

/-! ### `_RE_INVNO = Invoice\s*No\.?\s*0*(\d{3,})` (re.I) -/

/-- Anchored match of the primary invoice-number pattern, returning group 1.
After the literals, with `z` leading zeros in a digit run of length `n ≥ 3`,
greedy `0*` with backtracking consumes `min z (n - 3)` zeros so that `(\d{3,})`
keeps at least three digits. -/
def matchInvNoAt (cs : List Char) : Option (List Char) :=
  match matchCI "invoice".data cs with
  | none => none
  | some r1 =>
    let r2 := (spanP isSpaceC r1).2
    match matchCI "no".data r2 with
    | none => none
    | some r3 =>
      let r4 := match r3 with
        | '.' :: rest => rest
        | _ => r3
      let r5 := (spanP isSpaceC r4).2
      let run := (spanP isDigitC r5).1
      if run.length < 3 then none
      else
        let z := countP (· = '0') run
        some (run.drop (min z (run.length - 3)))

/-- `_RE_INVNO.search`. -/
def searchInvNo : List Char → Option (List Char) := searchFrom matchInvNoAt

/-! ### `_RE_INVNO_FBK = \b000\d{5}\b` -/

/-- Whole-match of the fallback pattern anchored at the current position,
given the previous character (`none` at the start of the text). -/
def matchFbkAt (prev : Option Char) (cs : List Char) : Option (List Char) :=
  match prev with
  | some p => if isWordC p then none else matchFbkAtCore cs
  | none => matchFbkAtCore cs
where
  matchFbkAtCore (cs : List Char) : Option (List Char) :=
    match matchLit "000".data cs with
    | none => none
    | some r =>
      match r with
      | a :: b :: c :: d :: e :: rest =>
        if isDigitC a && isDigitC b && isDigitC c && isDigitC d && isDigitC e then
          match rest with
          | [] => some ('0' :: '0' :: '0' :: a :: b :: c :: d :: e :: [])
          | x :: _ =>
            if isWordC x then none
            else some ('0' :: '0' :: '0' :: a :: b :: c :: d :: e :: [])
        else none
      | _ => none

/-- Leftmost-position driver for `searchFbk`, carrying the previous character
for the leading word boundary. -/
def searchFbkGo (prev : Option Char) : List Char → Option (List Char)
  | [] => matchFbkAt prev []
  | c :: cs =>
    match matchFbkAt prev (c :: cs) with
    | some g => some g
    | none => searchFbkGo (some c) cs

/-- `_RE_INVNO_FBK.search`. -/
def searchFbk (t : List Char) : Option (List Char) := searchFbkGo none t

/-- Step 4 of `parse_invoice`: strict pattern first, else fallback with
`.lstrip("0")`. -/
def invoiceNumberField (t : List Char) : Option (List Char) :=
  match searchInvNo t with
  | some g => some g
  | none =>
    match searchFbk t with
    | some w => some (w.dropWhile (· = '0'))
    | none => none

/-! ### `_RE_TOTALUSD` / `_RE_ANYUSD` (re.I)
`Total\s+amount:?\s*USD\s+([\d\s,]+(?:\.\d{2})?)` and
`USD\s+([\d\s,]+(?:\.\d{2})?)`. -/

/-- The character class `[\d\s,]` of the amount capture group. -/
def isAmtClass (c : Char) : Bool := isDigitC c || isSpaceC c || c = ','

/-- The optional `(?:\.\d{2})?` suffix after the greedy class run. -/
def optFrac (rest : List Char) : List Char :=
  match rest with
  | '.' :: a :: b :: _ => if isDigitC a && isDigitC b then ['.', a, b] else []
  | _ => []

/-- Backtracking for `\s+(...)` after `USD`: the greedy `\s+` consumes `k`
whitespace characters (largest first); the group then needs a non-empty
greedy `[\d\s,]+` run, possibly extended by the optional fraction. -/
def usdGroupTry : Nat → List Char → Option (List Char)
  | 0, _ => none
  | k + 1, cs =>
    let rest := cs.drop (k + 1)
    let run := (spanP isAmtClass rest).1
    if run = [] then usdGroupTry k cs
    else some (run ++ optFrac (rest.drop run.length))

/-- Group capture of `\s+([\d\s,]+(?:\.\d{2})?)` anchored after `USD`. -/
def usdGroup (cs : List Char) : Option (List Char) :=
  usdGroupTry (countP isSpaceC cs) cs

/-- Anchored match of `_RE_TOTALUSD`, returning group 1. -/
def matchTotalUSDAt (cs : List Char) : Option (List Char) :=
  match matchCI "total".data cs with
  | none => none
  | some r1 =>
    let w1 := countP isSpaceC r1
    if w1 = 0 then none
    else
      match matchCI "amount".data (r1.drop w1) with
      | none => none
      | some r2 =>
        let r3 := match r2 with
          | ':' :: rest => rest
          | _ => r2
        let r4 := (spanP isSpaceC r3).2
        match matchCI "usd".data r4 with
        | none => none
        | some r5 => usdGroup r5

/-- Anchored match of `_RE_ANYUSD`, returning group 1. -/
def matchAnyUSDAt (cs : List Char) : Option (List Char) :=
  match matchCI "usd".data cs with
  | none => none
  | some r => usdGroup r

def searchTotalUSD : List Char → Option (List Char) := searchFrom matchTotalUSDAt

def searchAnyUSD : List Char → Option (List Char) := searchFrom matchAnyUSDAt

/-! ### Numeric normalization (`_RE_NON_DIGIT_DOT.sub` + `float`) -/

/-- `_RE_NON_DIGIT_DOT.sub("", ·)`: keep only digits and dots. -/
def stripNonDigitDot (cs : List Char) : List Char :=
  cs.filter fun c => isDigitC c || c = '.'

/-- Python `str.strip()` (whitespace, ASCII model). -/
def pyStripWs (cs : List Char) : List Char :=
  ((cs.dropWhile isSpaceC).reverse.dropWhile isSpaceC).reverse

/-- The shape check of `float(s)` on the normalized amount strings: after
ignoring surrounding whitespace, the remainder must be made of digits and at
most one dot with at least one digit.  Returns the integer-part and
fractional-part digit strings. -/
def pyFloatShape (cs : List Char) : Option (List Char × List Char) :=
  let s := pyStripWs cs
  if s.all (fun c => isDigitC c || c = '.') && s.any isDigitC && s.count '.' ≤ 1 then
    some ((spanP isDigitC s).1,
      match (spanP isDigitC s).2 with
      | '.' :: fr => fr
      | _ => [])
  else none

/-- The decimal value denoted by integer and fraction digit strings.  (Exact
rational model of the Python float; the amounts settled here are decimals
that the comparisons in the claims observe exactly.) -/
def decValue (ip fr : List Char) : ℚ :=
  (digitsToNat ip : ℚ) + (digitsToNat fr : ℚ) / (10 : ℚ) ^ fr.length

/-- `float(s)` as used by both normalization paths. -/
def pyFloatOf (cs : List Char) : Option ℚ :=
  (pyFloatShape cs).map fun p => decValue p.1 p.2

/-- The `_RE_TOTALUSD.search(…) or _RE_ANYUSD.search(…)` capture. -/
def amountCapture (t : List Char) : Option (List Char) :=
  match searchTotalUSD t with
  | some g => some g
  | none => searchAnyUSD t

/-- Step 5 of `parse_invoice`: prefer `Total amount: USD …`, else first
`USD …`; normalize by deleting every non-digit non-dot character, then
`float`, with a failed parse collapsing to `None`. -/
def amountField (t : List Char) : Option ℚ :=
  match amountCapture t with
  | some g => pyFloatOf (stripNonDigitDot g)
  | none => none

/-- The kernel-computable skeleton of `amountField` (everything except the
final rational value). -/
def amountShape (t : List Char) : Option (List Char × List Char) :=
  match amountCapture t with
  | some g => pyFloatShape (stripNonDigitDot g)
  | none => none

/-- Amount normalization of `make_case_dir_v2-1.py` (`extract_from_pdf`):
`raw.replace(" ", "").replace(",", "")` then `float`. -/
def normalizeAmountV21 (g : List Char) : Option ℚ :=
  pyFloatOf (g.filter fun c => c ≠ ' ' && c ≠ ',')

/-! ### `_RE_CASEDESCR = Description\s+Amount\s+(.+?)\s+USD\s*\d` (re.I | re.S) -/

/-- The trailing context `\s+USD\s*\d` of the lazy group. -/
def tailMatchUSD (rest : List Char) : Bool :=
  let w := countP isSpaceC rest
  if w = 0 then false
  else
    match matchCI "usd".data (rest.drop w) with
    | none => false
    | some r2 =>
      match r2.drop (countP isSpaceC r2) with
      | d :: _ => isDigitC d
      | [] => false

/-- Lazy `(.+?)`: grow the group one character at a time (DOTALL, so line
breaks are allowed inside) until the trailing context matches. -/
def lazyGroup (g : List Char) : List Char → Option (List Char)
  | [] => none
  | c :: rest =>
    if tailMatchUSD rest then some (g ++ [c])
    else lazyGroup (g ++ [c]) rest

/-- Backtracking of the greedy `\s+` before the lazy group: `k` whitespace
characters consumed, largest first. -/
def descrTryW : Nat → List Char → Option (List Char)
  | 0, _ => none
  | k + 1, cs =>
    match lazyGroup [] (cs.drop (k + 1)) with
    | some g => some g
    | none => descrTryW k cs

/-- Anchored match of `_RE_CASEDESCR`, returning group 1. -/
def matchDescrAt (cs : List Char) : Option (List Char) :=
  match matchCI "description".data cs with
  | none => none
  | some r1 =>
    let w1 := countP isSpaceC r1
    if w1 = 0 then none
    else
      match matchCI "amount".data (r1.drop w1) with
      | none => none
      | some r2 => descrTryW (countP isSpaceC r2) r2

/-- `_RE_CASEDESCR.search`, returning group 1. -/
def searchDescr : List Char → Option (List Char) := searchFrom matchDescrAt

/-! ### `str.splitlines` and `_find_case_descr` -/

/-- Split off one line: the text before the first line break, and the rest
after the break (`none` when no break remains).  Break characters are `\n`,
`\r\n` and `\r`, as in `str.splitlines`. -/
def breakLine : List Char → List Char × Option (List Char)
  | [] => ([], none)
  | '\n' :: rest => ([], some rest)
  | '\r' :: '\n' :: rest => ([], some rest)
  | '\r' :: rest => ([], some rest)
  | c :: rest =>
    let r := breakLine rest
    (c :: r.1, r.2)

def splitLinesF : Nat → List Char → List (List Char)
  | _, [] => []
  | 0, cs => [cs]
  | fuel + 1, cs =>
    match breakLine cs with
    | (l, none) => [l]
    | (l, some rest) => l :: splitLinesF fuel rest

/-- `str.splitlines()`. -/
def splitLines (cs : List Char) : List (List Char) := splitLinesF cs.length cs

/-- The `for line in …: if line: return line` loop of `_find_case_descr`:
first line whose stripped form is non-empty, already stripped. -/
def firstNonBlank : List (List Char) → Option (List Char)
  | [] => none
  | l :: ls =>
    let s := pyStripWs l
    if s = [] then firstNonBlank ls else some s

/-- `_find_case_descr`: description line, stripped, or `None` if not found. -/
def find_case_descr (t : List Char) : Option (List Char) :=
  match searchDescr t with
  | some g => firstNonBlank (splitLines g)
  | none => none

/-! ### `parse_invoice` (validation and result record)
The PDF plumbing (file existence, page-text join) is outside the extraction
engine; the model takes the joined page text as input. -/

structure InvoiceRecord where
  invoice_number : List Char
  date : List Char
  amount : ℚ
  case_descr : List Char
deriving DecidableEq, Repr

/-- The `v in (None, "", [])` test of the validation step, for the
string-valued fields. -/
def strMissing : Option (List Char) → Bool
  | none => true
  | some s => s = []

/-- The `missing` list of the validation step, in the dict insertion order of
the source. -/
def missingFields (t : List Char) : List (List Char) :=
  (if strMissing (invoiceNumberField t) then ["invoice_number".data] else []) ++
    (if strMissing (dateField t) then ["date".data] else []) ++
    (if (amountField t).isNone then ["amount".data] else []) ++
    (if strMissing (find_case_descr t) then ["case_descr".data] else [])

/-- `", ".join`. -/
def joinComma : List (List Char) → List Char
  | [] => []
  | [x] => x
  | x :: xs => x ++ ", ".data ++ joinComma xs

/-- The `ValueError` message of the validation step. -/
def missingMsg (m : List (List Char)) : List Char :=
  "parse_invoice: missing ".data ++ joinComma m

/-- `parse_invoice` on the joined page text: the four extraction attempts,
the combined validation, and the result record.  An `Except.error` carries
the `ValueError` message. -/
def parse_invoice (t : List Char) : Except (List Char) InvoiceRecord :=
  match invoiceNumberField t, dateField t, amountField t, find_case_descr t with
  | some inv, some d, some a, some c =>
    if inv = [] || d = [] || c = [] then .error (missingMsg (missingFields t))
    else .ok ⟨inv, d, a, c⟩
  | _, _, _, _ => .error (missingMsg (missingFields t))

/-! ### Folder naming (`Mega_Help_Scriptv2.py` `clean_filename`/`create_case_dir`,
`Google_add_string_Hv2-1.py` `sanitize`/`create_case_dir`) -/

/-- `FORBIDDEN = r'<>:"/\\|?*'` as a character set (the escaped backslash
collapses to one class member). -/
def FORBIDDEN : List Char := ['<', '>', ':', '"', '/', '\\', '|', '?', '*']

/-- Python `str.strip(" .")`: drop leading and trailing spaces and periods. -/
def stripSpaceDot (s : List Char) : List Char :=
  ((s.dropWhile (fun c => c = ' ' || c = '.')).reverse.dropWhile
    (fun c => c = ' ' || c = '.')).reverse

/-- `Mega_Help_Scriptv2.clean_filename`: forbidden characters replaced by
`_`, then `strip(" .")`. -/
def clean_filename (s : List Char) : List Char :=
  stripSpaceDot (s.map fun c => if c ∈ FORBIDDEN then '_' else c)

/-- `Google_add_string_Hv2-1.sanitize`: forbidden characters deleted, then
`strip(" .")`. -/
def sanitize (s : List Char) : List Char :=
  stripSpaceDot (s.filter fun c => decide (c ∉ FORBIDDEN))

/-- `datetime.fromisoformat` restricted to the `YYYY-MM-DD` strings the
pipeline produces (other accepted forms never reach this call). -/
def isoParse (s : List Char) : Option (Nat × Nat × Nat) :=
  match s with
  | [y1, y2, y3, y4, '-', m1, m2, '-', d1, d2] =>
    if (isDigitC y1 && isDigitC y2 && isDigitC y3 && isDigitC y4) &&
        (isDigitC m1 && isDigitC m2 && isDigitC d1 && isDigitC d2) then
      let y := digitsToNat [y1, y2, y3, y4]
      let m := digitsToNat [m1, m2]
      let d := digitsToNat [d1, d2]
      if pyDateValid y m d then some (y, m, d) else none
    else none
  | _ => none

/-- Python `round` to an integer: round half to even (exact model on `ℚ`;
every amount rounded by the pipeline is a short decimal the binary float
represents closely enough for this observable). -/
def pyRound (q : ℚ) : ℤ :=
  let f := ⌊q⌋
  let r := q - f
  if r < 1 / 2 then f
  else if 1 / 2 < (r : ℚ) then f + 1
  else if f % 2 = 0 then f else f + 1

/-- Decimal rendering of a natural number (fuel-structural so that concrete
values reduce in the kernel). -/
def natCharsF : Nat → Nat → List Char
  | 0, _ => []
  | fuel + 1, n =>
    if n < 10 then [Char.ofNat ('0'.toNat + n)]
    else natCharsF fuel (n / 10) ++ [Char.ofNat ('0'.toNat + n % 10)]

def natChars (n : Nat) : List Char := natCharsF 30 n

/-- Python `str` of an `int`. -/
def intChars (z : ℤ) : List Char :=
  if z < 0 then '-' :: natChars z.natAbs else natChars z.natAbs

/-- `strftime("%y-%m")`. -/
def yymmChars (y m : Nat) : List Char := padNat 2 (y % 100) ++ '-' :: padNat 2 m

/-- The f-string of `create_case_dir` (identical in both scripts):
`Нова {yy_mm} XXX {int(round(amount))} №{invoice_number} Хелп`. -/
def folderTemplate (y m : Nat) (amount : ℚ) (invoice_number : Nat) : List Char :=
  "Нова ".data ++ yymmChars y m ++ " XXX ".data ++ intChars (pyRound amount) ++
    " №".data ++ natChars invoice_number ++ " Хелп".data

/-- Folder name of `Mega_Help_Scriptv2.create_case_dir` (via
`clean_filename`); `none` models the `fromisoformat` exception. -/
def megaFolderName (date_iso : List Char) (amount : ℚ) (invoice_number : Nat) :
    Option (List Char) :=
  match isoParse date_iso with
  | some (y, m, _) => some (clean_filename (folderTemplate y m amount invoice_number))
  | none => none

/-- Folder name of `Google_add_string_Hv2-1.create_case_dir` (via
`sanitize`). -/
def googleFolderName (date_iso : List Char) (amount : ℚ) (invoice_number : Nat) :
    Option (List Char) :=
  match isoParse date_iso with
  | some (y, m, _) => some (sanitize (folderTemplate y m amount invoice_number))
  | none => none

/-- Substring containment. -/
def containsSub (pat : List Char) : List Char → Bool
  | [] => (matchLit pat []).isSome
  | c :: rest => (matchLit pat (c :: rest)).isSome || containsSub pat rest

/-! ### The case-processing pipeline of `Mega_Help_Scriptv2.process`
External collaborators (Gmail, Drive, Sheets) enter as an environment; the
run is modelled as a pure state transformer that also emits the ordered
trace of its side effects. -/

structure Msg where
  id : List Char
  subject : List Char
  body : List Char
deriving DecidableEq, Repr

structure Row where
  invoice_number : Nat
  yymm : List Char
  descr : List Char
  amount : Option ℚ
  status : List Char
deriving DecidableEq, Repr

structure Flags where
  invoice_downloaded : Bool := false
  grant_downloaded : Bool := false
  parsed : Bool := false
  error : Option (List Char) := none
deriving DecidableEq, Repr

abbrev FlagStore := List (Nat × Flags)

def defaultFlags : Flags :=
  { invoice_downloaded := false, grant_downloaded := false, parsed := false,
    error := none }

def lookupFlags (fs : FlagStore) (n : Nat) : Flags :=
  match fs.find? (fun p => decide (p.1 = n)) with
  | some p => p.2
  | none => defaultFlags

def setFlags (fs : FlagStore) (n : Nat) (fl : Flags) : FlagStore :=
  match fs with
  | [] => [(n, fl)]
  | p :: rest => if p.1 = n then (n, fl) :: rest else p :: setFlags rest n fl

/-- `seen_data.setdefault("cases", {}).setdefault(str(n), asdict(CaseFlags()))`. -/
def setdefaultFlags (fs : FlagStore) (n : Nat) : FlagStore :=
  if fs.any (fun p => decide (p.1 = n)) then fs else fs ++ [(n, defaultFlags)]

structure PState where
  casesDf : List Row
  seenMsgs : List (List Char)
  flags : FlagStore

structure Env where
  messages : List Msg
  folderFound : List Char → Bool
  invoicePdf : Nat → Bool
  grantPdf : Nat → Bool
  invoiceText : Nat → List Char

/-- The observable side effects of a run, in order. -/
inductive Act where
  | fetchMsg (id : List Char)
  | addCaseRow (n : Nat)
  | addSeen (id : List Char)
  | saveCases
  | saveSeen
  | downloadInvoice (n : Nat)
  | downloadGrant (n : Nat)
  | setFlagInvoice (n : Nat)
  | setFlagGrant (n : Nat)
  | setFlagParsed (n : Nat)
  | setFlagError (n : Nat) (msg : List Char)
  | setStatus (n : Nat) (s : List Char)
  | createDir (nm : List Char)
  | moveInvoice (n : Nat)
  | moveGrant (n : Nat)
  | appendSheetRow (n : Nat)
deriving DecidableEq, Repr

/-! #### Discovery (`search_new_messages`) -/

/-- `RE_APPROVED = Approved case\s*(\d{8})` (case-sensitive), anchored. -/
def matchApprovedAt (cs : List Char) : Option Nat :=
  match matchLit "Approved case".data cs with
  | none => none
  | some r =>
    let rest := r.drop (countP isSpaceC r)
    let run := (spanP isDigitC rest).1
    if 8 ≤ run.length then some (digitsToNat (run.take 8)) else none

/-- `RE_APPROVED.search`. -/
def searchApproved : List Char → Option Nat := searchFrom matchApprovedAt

/-- `full_text = subject + "\n" + body`. -/
def msgFullText (m : Msg) : List Char := m.subject ++ '\n' :: m.body

/-- `search_new_messages`: skip already-seen ids without fetching; fetch the
rest; keep only those whose subject+body matches `RE_APPROVED`.  Returns the
result list and the fetch trace. -/
def searchNewMessages (msgs : List Msg) (seen : List (List Char)) :
    List (List Char × Nat) × List Act :=
  match msgs with
  | [] => ([], [])
  | m :: rest =>
    if m.id ∈ seen then searchNewMessages rest seen
    else
      match searchApproved (msgFullText m) with
      | some n =>
        ((m.id, n) :: (searchNewMessages rest seen).1,
          Act.fetchMsg m.id :: (searchNewMessages rest seen).2)
      | none =>
        ((searchNewMessages rest seen).1,
          Act.fetchMsg m.id :: (searchNewMessages rest seen).2)

/-- `set.add`: the seen-messages set, as an ordered duplicate-free list. -/
def addSeenId (seen : List (List Char)) (id : List Char) : List (List Char) :=
  if id ∈ seen then seen else seen ++ [id]

def pendingRow (n : Nat) : Row :=
  { invoice_number := n, yymm := [], descr := [], amount := none,
    status := "Ожидает Invoice".data }

/-- One iteration of the `for msg_id, inv_no in new_msgs` loop: append a
pending row when the case number is not yet in the table, record the message
id as seen, default the flags. -/
def gmailStep (st : PState) (id : List Char) (n : Nat) : PState × List Act :=
  if st.casesDf.any (fun r => decide (r.invoice_number = n)) then
    ({ casesDf := st.casesDf, seenMsgs := addSeenId st.seenMsgs id,
       flags := setdefaultFlags st.flags n }, [Act.addSeen id])
  else
    ({ casesDf := st.casesDf ++ [pendingRow n], seenMsgs := addSeenId st.seenMsgs id,
       flags := setdefaultFlags st.flags n }, [Act.addCaseRow n, Act.addSeen id])

/-- The `for msg_id, inv_no in new_msgs` loop. -/
def gmailStage (st : PState) : List (List Char × Nat) → PState × List Act
  | [] => (st, [])
  | (id, n) :: rest =>
    ((gmailStage (gmailStep st id n).1 rest).1,
      (gmailStep st id n).2 ++ (gmailStage (gmailStep st id n).1 rest).2)

/-! #### Per-case processing -/

/-- `RE_CASE_FOLDER = "{0:08d}"`. -/
def pad8 (n : Nat) : List Char :=
  let ds := natChars n
  List.replicate (8 - ds.length) '0' ++ ds

def GOTOVO : List Char := "Готово".data
def errPfx : List Char := "Ошибка: ".data
def errFolder : List Char := "Папка-кейс не найдена".data
def errInvNotFound : List Char := "Invoice не найден".data
def errIsoFormat : List Char := "Invalid isoformat string".data

/-- The body of the `try` block for one pending case, producing the updated
row, updated flags and the action trace (without the `finally` saves). -/
def caseWork (env : Env) (r : Row) (fl : Flags) : Row × Flags × List Act :=
  let n := r.invoice_number
  if env.folderFound (pad8 n) = false then
    ({ r with status := errPfx ++ errFolder }, { fl with error := some errFolder },
     [Act.setStatus n (errPfx ++ errFolder), Act.setFlagError n errFolder])
  else
    let fl₁ := if env.invoicePdf n then { fl with invoice_downloaded := true } else fl
    let acts₁ : List Act :=
      if env.invoicePdf n then [Act.downloadInvoice n, Act.setFlagInvoice n] else []
    let fl₂ := if env.grantPdf n then { fl₁ with grant_downloaded := true } else fl₁
    let acts₂ : List Act :=
      if env.grantPdf n then [Act.downloadGrant n, Act.setFlagGrant n] else []
    if env.invoicePdf n then
      match parse_invoice (env.invoiceText n) with
      | .ok info =>
        match isoParse info.date with
        | some (y, m, _) =>
          ({ r with yymm := yymmChars y m, descr := info.case_descr,
                    amount := some info.amount, status := GOTOVO },
           { fl₂ with parsed := true },
           acts₁ ++ acts₂ ++
             Act.setFlagParsed n ::
             Act.createDir (clean_filename (folderTemplate y m info.amount n)) ::
             Act.moveInvoice n ::
             ((if env.grantPdf n then [Act.moveGrant n] else []) ++
               [Act.appendSheetRow n, Act.setStatus n GOTOVO]))
        | none =>
          ({ r with status := errPfx ++ errIsoFormat },
           { fl₂ with error := some errIsoFormat },
           acts₁ ++ acts₂ ++
             [Act.setStatus n (errPfx ++ errIsoFormat), Act.setFlagError n errIsoFormat])
      | .error e =>
        ({ r with status := errPfx ++ e }, { fl₂ with error := some e },
         acts₁ ++ acts₂ ++ [Act.setStatus n (errPfx ++ e), Act.setFlagError n e])
    else
      ({ r with status := errPfx ++ errInvNotFound },
       { fl₂ with error := some "Invoice not found".data },
       acts₁ ++ acts₂ ++
         [Act.setStatus n (errPfx ++ errInvNotFound),
          Act.setFlagError n "Invoice not found".data])

/-- One iteration of the case loop: `Готово` rows are skipped before the
`try` (no actions at all); every other row runs `caseWork` and then the
`finally` block stores the flags and saves the two state files. -/
def caseStep (env : Env) (r : Row) (fs : FlagStore) : Row × FlagStore × List Act :=
  if r.status = GOTOVO then (r, fs, [])
  else
    let w := caseWork env r (lookupFlags fs r.invoice_number)
    (w.1, setFlags fs r.invoice_number w.2.1, w.2.2 ++ [Act.saveCases, Act.saveSeen])

def caseLoop (env : Env) : List Row → FlagStore → List Row × FlagStore × List Act
  | [], fs => ([], fs, [])
  | r :: rs, fs =>
    let s := caseStep env r fs
    let rest := caseLoop env rs s.2.1
    (s.1 :: rest.1, rest.2.1, s.2.2 ++ rest.2.2)

/-- `process()`: discovery, the post-discovery save, then the case loop with
its per-iteration `finally` saves. -/
def processModel (env : Env) (st : PState) : PState × List Act :=
  let sr := searchNewMessages env.messages st.seenMsgs
  let g := gmailStage st sr.1
  let l := caseLoop env g.1.casesDf g.1.flags
  ({ casesDf := l.1, seenMsgs := g.1.seenMsgs, flags := l.2.1 },
   sr.2 ++ g.2 ++ [Act.saveCases, Act.saveSeen] ++ l.2.2)

/-! ### A concrete run used to examine the save discipline -/

/-- Two fresh approved-case notifications; the drive has no case folders, so
both cases end in the folder-not-found error path. -/
def envTwoMsgs : Env :=
  { messages :=
      [⟨"m1".data, "Завершен".data, "Approved case 11111111".data⟩,
        ⟨"m2".data, "Завершен".data, "Approved case 22222222".data⟩],
    folderFound := fun _ => false,
    invoicePdf := fun _ => false,
    grantPdf := fun _ => false,
    invoiceText := fun _ => [] }

/-- The empty initial state (first run). -/
def st0 : PState := { casesDf := [], seenMsgs := [], flags := [] }

/-- A message whose search-query hit carries no `Approved case` pattern. -/
def envMixed : Env :=
  { messages := [⟨"m3".data, "Завершен".data, "no case number here".data⟩],
    folderFound := fun _ => false,
    invoicePdf := fun _ => false,
    grantPdf := fun _ => false,
    invoiceText := fun _ => [] }

/-- A case row already in the `Готово` state. -/
def rowDone : Row :=
  { invoice_number := 11111111, yymm := [], descr := [], amount := none,
    status := GOTOVO }

/-- A state in which case `11111111` is done and both notification ids have
been seen. -/
def stDone : PState :=
  { casesDf := [rowDone], seenMsgs := ["m1".data, "m2".data], flags := [] }

/-! ### Claim-side notions for the save-discipline claim (C8) -/

/-- Case-state transitions: creation of a case record, a per-case flag
update, or a status change. -/
def isCaseTransition : Act → Bool
  | .addCaseRow _ => true
  | .setFlagInvoice _ => true
  | .setFlagGrant _ => true
  | .setFlagParsed _ => true
  | .setFlagError _ _ => true
  | .setStatus _ _ => true
  | _ => false

/-- A save of the durable state store. -/
def isStoreSave : Act → Bool
  | .saveCases => true
  | .saveSeen => true
  | _ => false

/-- Modelled from the claim's words: after every case-state transition the
store is saved before any further transition is attempted — scanning the
trace, a transition must never occur while an earlier one is still
unsaved. -/
def savedAfterEachTransition : List Act → Bool := go false
where
  go (pending : Bool) : List Act → Bool
    | [] => true
    | a :: as =>
      if isCaseTransition a then !pending && go true as
      else if isStoreSave a then go false as
      else go pending as

/-- The per-iteration traces of the case loop, in order. -/
def caseSegs (env : Env) : List Row → FlagStore → List (List Act)
  | [], _ => []
  | r :: rs, fs =>
    (caseStep env r fs).2.2 :: caseSegs env rs (caseStep env r fs).2.1

/-! ## Bridge lemmas
`ℚ` arithmetic does not reduce in the kernel, so concrete amount values are
established by first computing the digit-level skeleton (`amountShape`,
`pyFloatShape`) and then evaluating `decValue` with `norm_num`. -/

theorem amountField_eq_shape (t : List Char) :
    amountField t = (amountShape t).map fun p => decValue p.1 p.2 := by
  unfold amountField amountShape pyFloatOf
  cases amountCapture t <;> rfl

theorem amountField_of_shape (t ip fr : List Char)
    (h : amountShape t = some (ip, fr)) :
    amountField t = some (decValue ip fr) := by
  rw [amountField_eq_shape, h]
  rfl

theorem amountField_isNone_eq (t : List Char) :
    (amountField t).isNone = (amountShape t).isNone := by
  rw [amountField_eq_shape]
  cases amountShape t <;> rfl

theorem normalizeAmountV21_of_shape (g ip fr : List Char)
    (h : pyFloatShape (g.filter fun c => c ≠ ' ' && c ≠ ',') = some (ip, fr)) :
    normalizeAmountV21 g = some (decValue ip fr) := by
  unfold normalizeAmountV21 pyFloatOf
  rw [h]
  rfl

theorem decValue_frac0 (ip fr : List Char) (n : Nat) (h : digitsToNat ip = n)
    (h2 : digitsToNat fr = 0) : decValue ip fr = (n : ℚ) := by
  unfold decValue
  rw [h, h2]
  norm_num

theorem searchFrom_eq_some_iff {α : Type} (f : List Char → Option α) (t : List Char)
    (g : α) :
    searchFrom f t = some g ↔
      ∃ i, i ≤ t.length ∧ f (t.drop i) = some g ∧ ∀ j, j < i → f (t.drop j) = none := by
  induction t with
  | nil =>
    constructor
    · intro h
      exact ⟨0, by simp, h, by omega⟩
    · rintro ⟨i, _, hf, _⟩
      simpa [List.drop_nil] using hf
  | cons c cs ih =>
    constructor
    · intro h
      unfold searchFrom at h
      cases hf : f (c :: cs) with
      | some g2 =>
        rw [hf] at h
        refine ⟨0, by simp, ?_, by omega⟩
        simpa [hf] using h
      | none =>
        rw [hf] at h
        obtain ⟨i, hi, h1, h2⟩ := ih.mp h
        refine ⟨i + 1, by simpa using hi, h1, ?_⟩
        intro j hj
        cases j with
        | zero => exact hf
        | succ j => exact h2 j (by omega)
    · rintro ⟨i, hi, h1, h2⟩
      unfold searchFrom
      cases i with
      | zero => rw [show f (c :: cs) = some g from h1]
      | succ i =>
        rw [show f (c :: cs) = none from h2 0 (Nat.succ_pos i)]
        exact ih.mpr ⟨i, by simpa using hi, h1, fun j hj => h2 (j + 1) (by omega)⟩

theorem strMissing_false_iff (o : Option (List Char)) :
    strMissing o = false ↔ ∃ v, o = some v ∧ v ≠ [] := by
  cases o with
  | none => simp [strMissing]
  | some v => simp [strMissing]

theorem missingFields_eq_nil_iff (t : List Char) :
    missingFields t = [] ↔
      (strMissing (invoiceNumberField t) = false ∧ strMissing (dateField t) = false ∧
        (amountField t).isNone = false ∧ strMissing (find_case_descr t) = false) := by
  unfold missingFields
  cases h1 : strMissing (invoiceNumberField t) <;>
    cases h2 : strMissing (dateField t) <;>
      cases h3 : (amountField t).isNone <;>
        cases h4 : strMissing (find_case_descr t) <;> simp

theorem mem_missingFields (t s : List Char) :
    s ∈ missingFields t ↔
      ((s = "invoice_number".data ∧ strMissing (invoiceNumberField t) = true) ∨
        (s = "date".data ∧ strMissing (dateField t) = true) ∨
        (s = "amount".data ∧ (amountField t).isNone = true) ∨
        (s = "case_descr".data ∧ strMissing (find_case_descr t) = true)) := by
  unfold missingFields
  cases h1 : strMissing (invoiceNumberField t) <;>
    cases h2 : strMissing (dateField t) <;>
      cases h3 : (amountField t).isNone <;>
        cases h4 : strMissing (find_case_descr t) <;>
          simp [List.mem_append]

theorem parse_invoice_ok_fields (t : List Char) (r : InvoiceRecord)
    (h : parse_invoice t = Except.ok r) :
    invoiceNumberField t = some r.invoice_number ∧ r.invoice_number ≠ [] ∧
    dateField t = some r.date ∧ r.date ≠ [] ∧
    amountField t = some r.amount ∧
    find_case_descr t = some r.case_descr ∧ r.case_descr ≠ [] := by
  unfold parse_invoice at h
  cases h1 : invoiceNumberField t <;> rw [h1] at h <;>
    cases h2 : dateField t <;> rw [h2] at h <;>
      cases h3 : amountField t <;> rw [h3] at h <;>
        cases h4 : find_case_descr t <;> rw [h4] at h <;> try simp at h
  rename_i inv d a c
  by_cases e1 : inv = [] <;> by_cases e2 : d = [] <;> by_cases e3 : c = [] <;>
    simp [e1, e2, e3] at h
  subst h
  exact ⟨rfl, e1, rfl, e2, rfl, rfl, e3⟩

theorem parse_invoice_ok_of_missing_nil (t : List Char) (h : missingFields t = []) :
    ∃ r, parse_invoice t = Except.ok r := by
  rw [missingFields_eq_nil_iff] at h
  obtain ⟨m1, m2, m3, m4⟩ := h
  obtain ⟨inv, hinv, hinvne⟩ := (strMissing_false_iff _).mp m1
  obtain ⟨d, hd, hdne⟩ := (strMissing_false_iff _).mp m2
  obtain ⟨c, hc, hcne⟩ := (strMissing_false_iff _).mp m4
  cases ha : amountField t with
  | none => rw [ha] at m3; simp at m3
  | some a =>
    refine ⟨⟨inv, d, a, c⟩, ?_⟩
    unfold parse_invoice
    rw [hinv, hd, ha, hc]
    simp [hinvne, hdne, hcne]

theorem parse_invoice_error_msg (t e : List Char)
    (h : parse_invoice t = Except.error e) : e = missingMsg (missingFields t) := by
  unfold parse_invoice at h
  cases h1 : invoiceNumberField t <;> rw [h1] at h <;>
    cases h2 : dateField t <;> rw [h2] at h <;>
      cases h3 : amountField t <;> rw [h3] at h <;>
        cases h4 : find_case_descr t <;> rw [h4] at h <;>
          try (simp only [Except.error.injEq] at h; exact h.symm)
  rename_i inv d a c
  by_cases e1 : inv = [] <;> by_cases e2 : d = [] <;> by_cases e3 : c = [] <;>
    simp [e1, e2, e3] at h <;> exact h.symm

theorem firstNonBlank_eq_none_iff (lines : List (List Char)) :
    firstNonBlank lines = none ↔ ∀ l ∈ lines, pyStripWs l = [] := by
  induction lines with
  | nil => simp [firstNonBlank]
  | cons l ls ih =>
    by_cases h : pyStripWs l = []
    · simp [firstNonBlank, h, ih]
    · simp [firstNonBlank, h]

theorem firstNonBlank_eq_some_iff (lines : List (List Char)) (s : List Char) :
    firstNonBlank lines = some s ↔
      ∃ pre l post, lines = pre ++ l :: post ∧ (∀ l2 ∈ pre, pyStripWs l2 = []) ∧
        pyStripWs l = s ∧ s ≠ [] := by
  induction lines with
  | nil =>
    constructor
    · intro h
      simp [firstNonBlank] at h
    · rintro ⟨pre, l, post, h, -, -, -⟩
      cases pre <;> simp_all
  | cons l0 ls ih =>
    by_cases h : pyStripWs l0 = []
    · rw [show firstNonBlank (l0 :: ls) = firstNonBlank ls from by
        simp [firstNonBlank, h], ih]
      constructor
      · rintro ⟨pre, l, post, rfl, hpre, hl, hs⟩
        refine ⟨l0 :: pre, l, post, rfl, ?_, hl, hs⟩
        rintro l2 hm
        rcases List.mem_cons.mp hm with rfl | hm
        · exact h
        · exact hpre l2 hm
      · rintro ⟨pre, l, post, heq, hpre, hl, hs⟩
        cases pre with
        | nil =>
          injection heq with h1 h2
          subst h1
          exact absurd (h ▸ hl) (Ne.symm hs)
        | cons p pre2 =>
          injection heq with h1 h2
          exact ⟨pre2, l, post, h2, fun l2 hm => hpre l2 (List.mem_cons_of_mem p hm),
            hl, hs⟩
    · rw [show firstNonBlank (l0 :: ls) = some (pyStripWs l0) from by
        simp [firstNonBlank, h]]
      constructor
      · intro he
        injection he with he
        exact ⟨[], l0, ls, rfl, by simp, he, by rw [← he]; exact h⟩
      · rintro ⟨pre, l, post, heq, hpre, hl, hs⟩
        cases pre with
        | nil =>
          injection heq with h1 h2
          subst h1
          rw [hl]
        | cons p pre2 =>
          injection heq with h1 h2
          subst h1
          exact absurd (hpre l0 (List.mem_cons_self l0 pre2)) h

theorem head_dropWhile_false (p : Char → Bool) (l : List Char) (c : Char)
    (h : (l.dropWhile p).head? = some c) : p c = false := by
  induction l with
  | nil => simp at h
  | cons a as ih =>
    by_cases hp : p a = true
    · rw [List.dropWhile_cons, if_pos hp] at h
      exact ih h
    · rw [List.dropWhile_cons, if_neg hp] at h
      simp at h
      rw [← h]
      simpa using hp

theorem getLast?_dropWhile_of_ne_nil (p : Char → Bool) (l : List Char)
    (h : l.dropWhile p ≠ []) : (l.dropWhile p).getLast? = l.getLast? := by
  induction l with
  | nil => simp at h
  | cons a as ih =>
    by_cases hp : p a = true
    · rw [List.dropWhile_cons, if_pos hp] at h ⊢
      rw [ih h]
      cases as with
      | nil => simp [List.dropWhile_nil] at h
      | cons b bs => rw [List.getLast?_cons_cons]
    · rw [List.dropWhile_cons, if_neg hp]

theorem stripSpaceDot_subset (l : List Char) : ∀ c ∈ stripSpaceDot l, c ∈ l := by
  intro c hc
  unfold stripSpaceDot at hc
  rw [List.mem_reverse] at hc
  have h2 := (List.dropWhile_sublist _).subset hc
  rw [List.mem_reverse] at h2
  exact (List.dropWhile_sublist _).subset h2

theorem stripSpaceDot_head (l : List Char) (c : Char)
    (h : (stripSpaceDot l).head? = some c) : (c = ' ' || c = '.') = false := by
  unfold stripSpaceDot at h
  rw [List.head?_reverse] at h
  have hne : (l.dropWhile (fun c => c = ' ' || c = '.')).reverse.dropWhile
      (fun c => c = ' ' || c = '.') ≠ [] := by
    intro h0
    rw [h0] at h
    simp at h
  rw [getLast?_dropWhile_of_ne_nil _ _ hne, List.getLast?_reverse] at h
  exact head_dropWhile_false _ _ _ h

theorem stripSpaceDot_getLast (l : List Char) (c : Char)
    (h : (stripSpaceDot l).getLast? = some c) : (c = ' ' || c = '.') = false := by
  unfold stripSpaceDot at h
  rw [List.getLast?_reverse] at h
  exact head_dropWhile_false _ _ _ h

theorem mem_clean_filename_not_forbidden (s : List Char) (c : Char)
    (hc : c ∈ FORBIDDEN) : c ∉ clean_filename s := by
  intro hmem
  unfold clean_filename at hmem
  have h1 := stripSpaceDot_subset _ c hmem
  obtain ⟨a, -, ha⟩ := List.mem_map.mp h1
  by_cases h : a ∈ FORBIDDEN
  · rw [if_pos h] at ha
    rw [← ha] at hc
    exact absurd hc (by decide)
  · rw [if_neg h] at ha
    rw [← ha] at hc
    exact h hc

theorem mem_sanitize_not_forbidden (s : List Char) (c : Char)
    (hc : c ∈ FORBIDDEN) : c ∉ sanitize s := by
  intro hmem
  unfold sanitize at hmem
  have h1 := stripSpaceDot_subset _ c hmem
  have h2 := List.mem_filter.mp h1
  exact absurd hc (by simpa using h2.2)

/-! ### Pipeline lemmas -/

theorem searchNew_acts_fetch (msgs : List Msg) (seen : List (List Char)) :
    ∀ a ∈ (searchNewMessages msgs seen).2, ∃ id, a = Act.fetchMsg id := by
  induction msgs with
  | nil => intro a ha; simp [searchNewMessages] at ha
  | cons m rest ih =>
    intro a ha
    unfold searchNewMessages at ha
    by_cases hm : m.id ∈ seen
    · rw [if_pos hm] at ha
      exact ih a ha
    · rw [if_neg hm] at ha
      cases hs : searchApproved (msgFullText m) <;> rw [hs] at ha <;>
        rcases List.mem_cons.mp ha with rfl | ha2
      · exact ⟨m.id, rfl⟩
      · exact ih a ha2
      · exact ⟨m.id, rfl⟩
      · exact ih a ha2

theorem searchNew_results_match (msgs : List Msg) (seen : List (List Char)) :
    ∀ id n, (id, n) ∈ (searchNewMessages msgs seen).1 →
      ∃ m ∈ msgs, m.id = id ∧ searchApproved (msgFullText m) = some n := by
  induction msgs with
  | nil => intro id n h; simp [searchNewMessages] at h
  | cons m rest ih =>
    intro id n h
    unfold searchNewMessages at h
    by_cases hm : m.id ∈ seen
    · rw [if_pos hm] at h
      obtain ⟨m2, hm2, h2⟩ := ih id n h
      exact ⟨m2, List.mem_cons_of_mem m hm2, h2⟩
    · rw [if_neg hm] at h
      cases hs : searchApproved (msgFullText m) <;> rw [hs] at h
      · obtain ⟨m2, hm2, h2⟩ := ih id n h
        exact ⟨m2, List.mem_cons_of_mem m hm2, h2⟩
      · rcases List.mem_cons.mp h with heq | h2
        · injection heq with e1 e2
          exact ⟨m, List.mem_cons_self m rest, e1.symm, by rw [hs, e2]⟩
        · obtain ⟨m2, hm2, h2⟩ := ih id n h2
          exact ⟨m2, List.mem_cons_of_mem m hm2, h2⟩

theorem searchNew_fetch_of_mem (msgs : List Msg) (seen : List (List Char))
    (m : Msg) (hm : m ∈ msgs) (hs : m.id ∉ seen) :
    Act.fetchMsg m.id ∈ (searchNewMessages msgs seen).2 := by
  induction msgs with
  | nil => cases hm
  | cons m0 rest ih =>
    unfold searchNewMessages
    rcases List.mem_cons.mp hm with rfl | hm2
    · rw [if_neg hs]
      cases searchApproved (msgFullText m) <;> exact List.mem_cons_self _ _
    · by_cases h0 : m0.id ∈ seen
      · rw [if_pos h0]
        exact ih hm2
      · rw [if_neg h0]
        cases searchApproved (msgFullText m0) <;>
          exact List.mem_cons_of_mem _ (ih hm2)

theorem searchNew_results_not_seen (msgs : List Msg) (seen : List (List Char)) :
    ∀ id n, (id, n) ∈ (searchNewMessages msgs seen).1 → id ∉ seen := by
  induction msgs with
  | nil => intro id n h; simp [searchNewMessages] at h
  | cons m rest ih =>
    intro id n h
    unfold searchNewMessages at h
    by_cases hm : m.id ∈ seen
    · rw [if_pos hm] at h
      exact ih id n h
    · rw [if_neg hm] at h
      cases hs : searchApproved (msgFullText m) <;> rw [hs] at h
      · exact ih id n h
      · rcases List.mem_cons.mp h with heq | h2
        · injection heq with e1 _
          rw [e1]
          exact hm
        · exact ih id n h2

theorem mem_addSeenId (seen : List (List Char)) (id x : List Char) :
    x ∈ addSeenId seen id ↔ x ∈ seen ∨ x = id := by
  unfold addSeenId
  by_cases h : id ∈ seen
  · rw [if_pos h]
    constructor
    · exact Or.inl
    · rintro (hx | rfl)
      · exact hx
      · exact h
  · rw [if_neg h]
    simp [List.mem_append]

theorem gmailStage_seen (res : List (List Char × Nat)) (st : PState) (x : List Char) :
    x ∈ (gmailStage st res).1.seenMsgs ↔
      x ∈ st.seenMsgs ∨ ∃ n, (x, n) ∈ res := by
  induction res generalizing st with
  | nil => simp [gmailStage]
  | cons p rest ih =>
    obtain ⟨id, n⟩ := p
    unfold gmailStage
    rw [ih]
    have hstep : (gmailStep st id n).1.seenMsgs = addSeenId st.seenMsgs id := by
      unfold gmailStep
      split <;> rfl
    rw [hstep, mem_addSeenId]
    constructor
    · rintro ((hx | rfl) | ⟨n2, h2⟩)
      · exact Or.inl hx
      · exact Or.inr ⟨n, List.mem_cons_self _ _⟩
      · exact Or.inr ⟨n2, List.mem_cons_of_mem _ h2⟩
    · rintro (hx | ⟨n2, h2⟩)
      · exact Or.inl (Or.inl hx)
      · rcases List.mem_cons.mp h2 with heq | h3
        · injection heq with e1 _
          exact Or.inl (Or.inr e1)
        · exact Or.inr ⟨n2, h3⟩

theorem gmailStage_rows_sub (res : List (List Char × Nat)) (st : PState) :
    ∀ row ∈ st.casesDf, row ∈ (gmailStage st res).1.casesDf := by
  induction res generalizing st with
  | nil => intro row h; simpa [gmailStage] using h
  | cons p rest ih =>
    obtain ⟨id, n⟩ := p
    intro row h
    unfold gmailStage
    refine ih _ row ?_
    unfold gmailStep
    split
    · exact h
    · exact List.mem_append_left _ h

theorem gmailStage_rows_of_mem (res : List (List Char × Nat)) (st : PState) (n : Nat)
    (hex : ∃ row ∈ st.casesDf, row.invoice_number = n) :
    ∀ row ∈ (gmailStage st res).1.casesDf, row.invoice_number = n →
      row ∈ st.casesDf := by
  induction res generalizing st with
  | nil => intro row h _; simpa [gmailStage] using h
  | cons p rest ih =>
    obtain ⟨id, k⟩ := p
    intro row h hn
    unfold gmailStage at h
    by_cases hp : st.casesDf.any (fun r => decide (r.invoice_number = k)) = true
    · have hstep : (gmailStep st id k).1.casesDf = st.casesDf := by
        unfold gmailStep
        rw [if_pos hp]
      have hex2 : ∃ row ∈ (gmailStep st id k).1.casesDf, row.invoice_number = n := by
        rw [hstep]; exact hex
      have := ih _ hex2 row h hn
      rwa [hstep] at this
    · have hstep : (gmailStep st id k).1.casesDf = st.casesDf ++ [pendingRow k] := by
        unfold gmailStep
        rw [if_neg hp]
      have hkn : k ≠ n := by
        rintro rfl
        obtain ⟨row0, hr0, hr0n⟩ := hex
        refine hp (List.any_eq_true.mpr ⟨row0, hr0, by simp [hr0n]⟩)
      have hex2 : ∃ row ∈ (gmailStep st id k).1.casesDf, row.invoice_number = n := by
        rw [hstep]
        obtain ⟨row0, hr0, hr0n⟩ := hex
        exact ⟨row0, List.mem_append_left _ hr0, hr0n⟩
      have h2 := ih _ hex2 row h hn
      rw [hstep] at h2
      rcases List.mem_append.mp h2 with h3 | h3
      · exact h3
      · rcases List.mem_cons.mp h3 with rfl | h4
        · exact absurd hn hkn
        · cases h4

theorem gmailStage_acts (res : List (List Char × Nat)) (st : PState) :
    ∀ a ∈ (gmailStage st res).2,
      (∃ k, a = Act.addCaseRow k) ∨ ∃ id, a = Act.addSeen id := by
  induction res generalizing st with
  | nil => intro a h; simp [gmailStage] at h
  | cons p rest ih =>
    obtain ⟨id, n⟩ := p
    intro a h
    unfold gmailStage at h
    rcases List.mem_append.mp h with h1 | h2
    · unfold gmailStep at h1
      split at h1 <;> rcases List.mem_cons.mp h1 with rfl | h3
      · exact Or.inr ⟨id, rfl⟩
      · cases h3
      · exact Or.inl ⟨n, rfl⟩
      · rcases List.mem_cons.mp h3 with rfl | h4
        · exact Or.inr ⟨id, rfl⟩
        · cases h4
    · exact ih _ a h2

theorem caseWork_invnum (env : Env) (r : Row) (fl : Flags) :
    (caseWork env r fl).1.invoice_number = r.invoice_number := by
  unfold caseWork
  by_cases hf : env.folderFound (pad8 r.invoice_number) = false
  · rw [if_pos hf]
  · rw [if_neg hf]
    by_cases hi : env.invoicePdf r.invoice_number = true
    · simp only [hi, if_true]
      cases hp : parse_invoice (env.invoiceText r.invoice_number) with
      | ok info =>
        cases hd : isoParse info.date with
        | none => simp [hp, hd]
        | some v =>
          obtain ⟨y, m, dd⟩ := v
          simp [hp, hd]
      | error e => simp [hp]
    · rw [if_neg hi]

theorem caseWork_no_foreign (env : Env) (r : Row) (fl : Flags) (k : Nat)
    (hk : k ≠ r.invoice_number) :
    Act.downloadInvoice k ∉ (caseWork env r fl).2.2 ∧
    Act.downloadGrant k ∉ (caseWork env r fl).2.2 ∧
    Act.appendSheetRow k ∉ (caseWork env r fl).2.2 := by
  unfold caseWork
  by_cases hf : env.folderFound (pad8 r.invoice_number) = false
  · simp [hf]
  · rw [if_neg hf]
    by_cases hi : env.invoicePdf r.invoice_number = true
    · by_cases hg : env.grantPdf r.invoice_number = true
      · cases hp : parse_invoice (env.invoiceText r.invoice_number) with
        | ok info =>
          cases hd : isoParse info.date with
          | none => simp [hi, hg, hp, hd, hk]
          | some v =>
            obtain ⟨y, m, dd⟩ := v
            simp [hi, hg, hp, hd, hk]
        | error e => simp [hi, hg, hp, hk]
      · cases hp : parse_invoice (env.invoiceText r.invoice_number) with
        | ok info =>
          cases hd : isoParse info.date with
          | none => simp [hi, hg, hp, hd, hk]
          | some v =>
            obtain ⟨y, m, dd⟩ := v
            simp [hi, hg, hp, hd, hk]
        | error e => simp [hi, hg, hp, hk]
    · by_cases hg : env.grantPdf r.invoice_number = true <;> simp [hi, hg, hk]

theorem caseStep_done (env : Env) (r : Row) (fs : FlagStore)
    (h : r.status = GOTOVO) : caseStep env r fs = (r, fs, []) := by
  unfold caseStep
  rw [if_pos h]

theorem caseStep_invnum (env : Env) (r : Row) (fs : FlagStore) :
    (caseStep env r fs).1.invoice_number = r.invoice_number := by
  unfold caseStep
  by_cases h : r.status = GOTOVO
  · rw [if_pos h]
  · rw [if_neg h]
    exact caseWork_invnum env r (lookupFlags fs r.invoice_number)

theorem caseStep_shape (env : Env) (r : Row) (fs : FlagStore) :
    (caseStep env r fs).2.2 = [] ∨
      ∃ p, (caseStep env r fs).2.2 = p ++ [Act.saveCases, Act.saveSeen] := by
  unfold caseStep
  by_cases h : r.status = GOTOVO
  · rw [if_pos h]
    exact Or.inl rfl
  · rw [if_neg h]
    exact Or.inr ⟨(caseWork env r (lookupFlags fs r.invoice_number)).2.2, rfl⟩

theorem caseStep_no_foreign (env : Env) (r : Row) (fs : FlagStore) (k : Nat)
    (hk : k ≠ r.invoice_number) :
    Act.downloadInvoice k ∉ (caseStep env r fs).2.2 ∧
    Act.downloadGrant k ∉ (caseStep env r fs).2.2 ∧
    Act.appendSheetRow k ∉ (caseStep env r fs).2.2 := by
  unfold caseStep
  by_cases h : r.status = GOTOVO
  · rw [if_pos h]
    simp
  · rw [if_neg h]
    obtain ⟨w1, w2, w3⟩ := caseWork_no_foreign env r (lookupFlags fs r.invoice_number) k hk
    refine ⟨?_, ?_, ?_⟩ <;> intro hmem <;>
      rcases List.mem_append.mp hmem with h1 | h1
    · exact w1 h1
    · simp at h1
    · exact w2 h1
    · simp at h1
    · exact w3 h1
    · simp at h1

theorem caseLoop_acts_eq_join (env : Env) (rows : List Row) (fs : FlagStore) :
    (caseLoop env rows fs).2.2 = (caseSegs env rows fs).flatten := by
  induction rows generalizing fs with
  | nil => simp [caseLoop, caseSegs]
  | cons r rs ih => simp [caseLoop, caseSegs, ih]

theorem caseSegs_shape (env : Env) (rows : List Row) (fs : FlagStore) :
    ∀ seg ∈ caseSegs env rows fs,
      seg = [] ∨ ∃ p, seg = p ++ [Act.saveCases, Act.saveSeen] := by
  induction rows generalizing fs with
  | nil => intro seg h; simp [caseSegs] at h
  | cons r rs ih =>
    intro seg h
    unfold caseSegs at h
    rcases List.mem_cons.mp h with rfl | h2
    · exact caseStep_shape env r fs
    · exact ih _ seg h2

theorem caseLoop_main (env : Env) (rows : List Row) (fs : FlagStore) (n : Nat)
    (hrows : ∀ row ∈ rows, row.invoice_number = n → row.status = GOTOVO) :
    (Act.downloadInvoice n ∉ (caseLoop env rows fs).2.2 ∧
      Act.downloadGrant n ∉ (caseLoop env rows fs).2.2 ∧
      Act.appendSheetRow n ∉ (caseLoop env rows fs).2.2) ∧
    (∀ row ∈ (caseLoop env rows fs).1, row.invoice_number = n →
      row.status = GOTOVO) ∧
    (∀ row ∈ rows, row.invoice_number = n → row ∈ (caseLoop env rows fs).1) := by
  induction rows generalizing fs with
  | nil => simp [caseLoop]
  | cons r rs ih =>
    have hrs : ∀ row ∈ rs, row.invoice_number = n → row.status = GOTOVO :=
      fun row h hn => hrows row (List.mem_cons_of_mem r h) hn
    by_cases hr : r.invoice_number = n
    · have hdone := hrows r (List.mem_cons_self r rs) hr
      obtain ⟨⟨i1, i2, i3⟩, i4, i5⟩ := ih fs hrs
      rw [show caseLoop env (r :: rs) fs =
          ((caseStep env r fs).1 :: (caseLoop env rs (caseStep env r fs).2.1).1,
            (caseLoop env rs (caseStep env r fs).2.1).2.1,
            (caseStep env r fs).2.2 ++ (caseLoop env rs (caseStep env r fs).2.1).2.2)
          from rfl]
      rw [caseStep_done env r fs hdone]
      refine ⟨⟨?_, ?_, ?_⟩, ?_, ?_⟩
      · simpa using i1
      · simpa using i2
      · simpa using i3
      · intro row hm hn
        rcases List.mem_cons.mp hm with rfl | h2
        · exact hdone
        · exact i4 row h2 hn
      · intro row hm hn
        rcases List.mem_cons.mp hm with rfl | h2
        · exact List.mem_cons_self _ _
        · exact List.mem_cons_of_mem _ (i5 row h2 hn)
    · obtain ⟨⟨i1, i2, i3⟩, i4, i5⟩ := ih (caseStep env r fs).2.1 hrs
      obtain ⟨f1, f2, f3⟩ := caseStep_no_foreign env r fs n (fun he => hr he.symm)
      rw [show caseLoop env (r :: rs) fs =
          ((caseStep env r fs).1 :: (caseLoop env rs (caseStep env r fs).2.1).1,
            (caseLoop env rs (caseStep env r fs).2.1).2.1,
            (caseStep env r fs).2.2 ++ (caseLoop env rs (caseStep env r fs).2.1).2.2)
          from rfl]
      refine ⟨⟨?_, ?_, ?_⟩, ?_, ?_⟩
      · intro hmem
        rcases List.mem_append.mp hmem with h1 | h1
        · exact f1 h1
        · exact i1 h1
      · intro hmem
        rcases List.mem_append.mp hmem with h1 | h1
        · exact f2 h1
        · exact i2 h1
      · intro hmem
        rcases List.mem_append.mp hmem with h1 | h1
        · exact f3 h1
        · exact i3 h1
      · intro row hm hn
        rcases List.mem_cons.mp hm with rfl | h2
        · rw [caseStep_invnum env r fs] at hn
          exact absurd hn hr
        · exact i4 row h2 hn
      · intro row hm hn
        rcases List.mem_cons.mp hm with rfl | h2
        · exact absurd hn hr
        · exact List.mem_cons_of_mem _ (i5 row h2 hn)

theorem processModel_trace (env : Env) (st : PState) :
    (processModel env st).2 =
      (searchNewMessages env.messages st.seenMsgs).2 ++
        (gmailStage st (searchNewMessages env.messages st.seenMsgs).1).2 ++
        [Act.saveCases, Act.saveSeen] ++
        (caseLoop env
          (gmailStage st (searchNewMessages env.messages st.seenMsgs).1).1.casesDf
          (gmailStage st (searchNewMessages env.messages st.seenMsgs).1).1.flags).2.2 :=
  rfl

theorem processModel_rows (env : Env) (st : PState) :
    (processModel env st).1.casesDf =
      (caseLoop env
        (gmailStage st (searchNewMessages env.messages st.seenMsgs).1).1.casesDf
        (gmailStage st (searchNewMessages env.messages st.seenMsgs).1).1.flags).1 :=
  rfl

theorem processModel_seen (env : Env) (st : PState) :
    (processModel env st).1.seenMsgs =
      (gmailStage st (searchNewMessages env.messages st.seenMsgs).1).1.seenMsgs :=
  rfl

/-! ## Claim theorems -/

/-- C4.  Once every tracked row of a case is in the `Готово` state,
re-running the pipeline performs no document download and appends no
tracking-table row for that case, and the case's rows are still `Готово`
afterwards — so the case is skipped on every future run. -/
theorem c4_done_case_skipped (env : Env) (st : PState) (n : Nat)
    (hex : ∃ row ∈ st.casesDf, row.invoice_number = n)
    (hdone : ∀ row ∈ st.casesDf, row.invoice_number = n → row.status = GOTOVO) :
    (Act.downloadInvoice n ∉ (processModel env st).2 ∧
      Act.downloadGrant n ∉ (processModel env st).2 ∧
      Act.appendSheetRow n ∉ (processModel env st).2) ∧
    (∃ row ∈ (processModel env st).1.casesDf, row.invoice_number = n) ∧
    (∀ row ∈ (processModel env st).1.casesDf, row.invoice_number = n →
      row.status = GOTOVO) := by
  have hrows1 : ∀ row ∈
      (gmailStage st (searchNewMessages env.messages st.seenMsgs).1).1.casesDf,
      row.invoice_number = n → row.status = GOTOVO :=
    fun row hm hn => hdone row (gmailStage_rows_of_mem _ st n hex row hm hn) hn
  obtain ⟨⟨l1, l2, l3⟩, l4, l5⟩ :=
    caseLoop_main env
      (gmailStage st (searchNewMessages env.messages st.seenMsgs).1).1.casesDf
      (gmailStage st (searchNewMessages env.messages st.seenMsgs).1).1.flags n hrows1
  refine ⟨⟨?_, ?_, ?_⟩, ?_, ?_⟩
  · rw [processModel_trace]
    intro hmem
    simp only [List.mem_append] at hmem
    rcases hmem with ((h | h) | h) | h
    · obtain ⟨id, he⟩ := searchNew_acts_fetch _ _ _ h
      cases he
    · rcases gmailStage_acts _ st _ h with ⟨k, he⟩ | ⟨id, he⟩ <;> cases he
    · simp at h
    · exact l1 h
  · rw [processModel_trace]
    intro hmem
    simp only [List.mem_append] at hmem
    rcases hmem with ((h | h) | h) | h
    · obtain ⟨id, he⟩ := searchNew_acts_fetch _ _ _ h
      cases he
    · rcases gmailStage_acts _ st _ h with ⟨k, he⟩ | ⟨id, he⟩ <;> cases he
    · simp at h
    · exact l2 h
  · rw [processModel_trace]
    intro hmem
    simp only [List.mem_append] at hmem
    rcases hmem with ((h | h) | h) | h
    · obtain ⟨id, he⟩ := searchNew_acts_fetch _ _ _ h
      cases he
    · rcases gmailStage_acts _ st _ h with ⟨k, he⟩ | ⟨id, he⟩ <;> cases he
    · simp at h
    · exact l3 h
  · rw [processModel_rows]
    obtain ⟨row0, h0, h0n⟩ := hex
    exact ⟨row0, l5 row0 (gmailStage_rows_sub _ st row0 h0) h0n, h0n⟩
  · rw [processModel_rows]
    exact l4

/-- C4 witness: the theorem applied at a concrete state whose only case is
done. -/
theorem c4_done_case_skipped_witness :
    Act.downloadInvoice 11111111 ∉ (processModel envTwoMsgs stDone).2 ∧
    Act.appendSheetRow 11111111 ∉ (processModel envTwoMsgs stDone).2 :=
  ⟨(c4_done_case_skipped envTwoMsgs stDone 11111111
      ⟨rowDone, by decide, by decide⟩ (by decide)).1.1,
    (c4_done_case_skipped envTwoMsgs stDone 11111111
      ⟨rowDone, by decide, by decide⟩ (by decide)).1.2.2⟩

/-- C8, counterexample.  The claim requires a save of the state store after
every case-state transition before the next transition is attempted.  On the
run `envTwoMsgs`/`st0`, the discovery stage creates two case records (and
each case iteration performs a status and a flag transition) with only a
single batch save afterwards, so the trace violates the property. -/
theorem c8_save_after_each_transition_refuted :
    savedAfterEachTransition (processModel envTwoMsgs st0).2 = false ∧
    Act.addCaseRow 11111111 ∈ (processModel envTwoMsgs st0).2 ∧
    Act.addCaseRow 22222222 ∈ (processModel envTwoMsgs st0).2 := by
  refine ⟨by decide, by decide, by decide⟩

/-- C8, amended.  The state store is saved once after the discovery stage
(covering that stage's batch of case creations and seen-message additions),
and the case loop's trace is a concatenation of per-case segments each of
which is empty (skipped case) or ends with the two saves of the `finally`
block — so a save always occurs between one case's transitions and the
next case's, and an interruption loses at most the in-flight case's
transitions or the current discovery batch. -/
theorem c8_amended_per_case_saves (env : Env) (st : PState) :
    ∃ segs : List (List Act),
      (processModel env st).2 =
        (searchNewMessages env.messages st.seenMsgs).2 ++
          (gmailStage st (searchNewMessages env.messages st.seenMsgs).1).2 ++
          [Act.saveCases, Act.saveSeen] ++ segs.flatten ∧
      (∀ seg ∈ segs, seg = [] ∨ ∃ p, seg = p ++ [Act.saveCases, Act.saveSeen]) ∧
      ∀ a ∈ (searchNewMessages env.messages st.seenMsgs).2, ∃ id, a = Act.fetchMsg id := by
  refine ⟨caseSegs env
      (gmailStage st (searchNewMessages env.messages st.seenMsgs).1).1.casesDf
      (gmailStage st (searchNewMessages env.messages st.seenMsgs).1).1.flags,
    ?_, ?_, ?_⟩
  · rw [processModel_trace, caseLoop_acts_eq_join]
  · exact caseSegs_shape env _ _
  · exact searchNew_acts_fetch _ _

/-- C8 witness: the amended theorem applied at the concrete two-message
run. -/
theorem c8_amended_per_case_saves_witness :
    ∃ segs : List (List Act),
      (processModel envTwoMsgs st0).2 =
        (searchNewMessages envTwoMsgs.messages st0.seenMsgs).2 ++
          (gmailStage st0 (searchNewMessages envTwoMsgs.messages st0.seenMsgs).1).2 ++
          [Act.saveCases, Act.saveSeen] ++ segs.flatten ∧
      (∀ seg ∈ segs, seg = [] ∨ ∃ p, seg = p ++ [Act.saveCases, Act.saveSeen]) ∧
      ∀ a ∈ (searchNewMessages envTwoMsgs.messages st0.seenMsgs).2,
        ∃ id, a = Act.fetchMsg id :=
  c8_amended_per_case_saves envTwoMsgs st0

/-- C10.  The seen-messages set only receives ids of messages whose
subject+body matched the `Approved case \d{8}` pattern; a fetched message
with no such pattern is not recorded as seen and is fetched and re-evaluated
again on the next run. -/
theorem c10_seen_only_matching (env : Env) (st : PState) :
    (∀ id, id ∈ (processModel env st).1.seenMsgs → id ∉ st.seenMsgs →
      ∃ m ∈ env.messages, m.id = id ∧ (searchApproved (msgFullText m)).isSome = true) ∧
    (∀ m ∈ env.messages, m.id ∉ st.seenMsgs →
      (∀ m2 ∈ env.messages, m2.id = m.id → searchApproved (msgFullText m2) = none) →
      (m.id ∉ (processModel env st).1.seenMsgs ∧
        Act.fetchMsg m.id ∈ (processModel env st).2 ∧
        Act.fetchMsg m.id ∈ (processModel env (processModel env st).1).2)) := by
  have hseen : ∀ x, x ∈ (processModel env st).1.seenMsgs ↔
      x ∈ st.seenMsgs ∨ ∃ k, (x, k) ∈ (searchNewMessages env.messages st.seenMsgs).1 := by
    intro x
    rw [processModel_seen]
    exact gmailStage_seen _ st x
  constructor
  · intro id hid hnot
    rcases (hseen id).mp hid with h | ⟨k, hk⟩
    · exact absurd h hnot
    · obtain ⟨m, hm, hmid, hms⟩ := searchNew_results_match _ _ id k hk
      exact ⟨m, hm, hmid, by rw [hms]; rfl⟩
  · intro m hm hnot hno
    have hnotafter : m.id ∉ (processModel env st).1.seenMsgs := by
      intro hmem
      rcases (hseen m.id).mp hmem with h | ⟨k, hk⟩
      · exact hnot h
      · obtain ⟨m2, hm2, hm2id, hm2s⟩ := searchNew_results_match _ _ m.id k hk
        rw [hno m2 hm2 hm2id] at hm2s
        cases hm2s
    refine ⟨hnotafter, ?_, ?_⟩
    · rw [processModel_trace]
      exact List.mem_append_left _ (List.mem_append_left _ (List.mem_append_left _
        (searchNew_fetch_of_mem _ _ m hm hnot)))
    · rw [processModel_trace]
      exact List.mem_append_left _ (List.mem_append_left _ (List.mem_append_left _
        (searchNew_fetch_of_mem _ _ m hm hnotafter)))

/-- C10 witness: the theorem applied at a run whose only fetched message has
no `Approved case` pattern. -/
theorem c10_seen_only_matching_witness :
    "m3".data ∉ (processModel envMixed st0).1.seenMsgs ∧
    Act.fetchMsg "m3".data ∈ (processModel envMixed st0).2 := by
  have h := (c10_seen_only_matching envMixed st0).2
    ⟨"m3".data, "Завершен".data, "no case number here".data⟩
    (by decide) (by decide) (by decide)
  exact ⟨h.1, h.2.1⟩

/-- C1.  `parse_invoice` returns a record exactly when all four fields are
located non-empty; the record's fields are exactly the located values (never
a default); otherwise it fails with the single combined message that lists
precisely the missing field names and no others. -/
theorem c1_all_or_nothing (t : List Char) :
    (∀ r, parse_invoice t = Except.ok r →
      invoiceNumberField t = some r.invoice_number ∧ r.invoice_number ≠ [] ∧
      dateField t = some r.date ∧ r.date ≠ [] ∧
      amountField t = some r.amount ∧
      find_case_descr t = some r.case_descr ∧ r.case_descr ≠ []) ∧
    ((∃ r, parse_invoice t = Except.ok r) ↔ missingFields t = []) ∧
    (∀ e, parse_invoice t = Except.error e →
      missingFields t ≠ [] ∧ e = missingMsg (missingFields t)) ∧
    (∀ s, s ∈ missingFields t ↔
      ((s = "invoice_number".data ∧ strMissing (invoiceNumberField t) = true) ∨
        (s = "date".data ∧ strMissing (dateField t) = true) ∨
        (s = "amount".data ∧ (amountField t).isNone = true) ∨
        (s = "case_descr".data ∧ strMissing (find_case_descr t) = true))) := by
  refine ⟨parse_invoice_ok_fields t, ⟨?_, parse_invoice_ok_of_missing_nil t⟩, ?_,
    mem_missingFields t⟩
  · rintro ⟨r, hr⟩
    obtain ⟨f1, f2, f3, f4, f5, f6, f7⟩ := parse_invoice_ok_fields t r hr
    rw [missingFields_eq_nil_iff]
    refine ⟨?_, ?_, ?_, ?_⟩
    · rw [f1]; simpa [strMissing] using f2
    · rw [f3]; simpa [strMissing] using f4
    · rw [f5]; rfl
    · rw [f6]; simpa [strMissing] using f7
  · intro e he
    refine ⟨?_, parse_invoice_error_msg t e he⟩
    intro h0
    obtain ⟨r, hr⟩ := parse_invoice_ok_of_missing_nil t h0
    rw [hr] at he
    cases he

/-- C6.  Date extraction uses the first (leftmost, greedy) `M/D/YYYY`
substring, reads it as month/day/year, and an invalid calendar triple makes
the date field fail for the whole extraction — it is not defaulted and no
later match is tried.  Concretely, `13/13/2025 but 1/2/2025` has a valid
later match yet extraction fails on the first, and `3/10/2025` is read as
March 10. -/
theorem c6_date_extraction :
    (∀ t g, searchDate t = some g ↔
      ∃ i, i ≤ t.length ∧ matchDateAt (t.drop i) = some g ∧
        ∀ j, j < i → matchDateAt (t.drop j) = none) ∧
    (∀ t mm dd yyyy, searchDate t = some (mm, dd, yyyy) →
      pyDateValid yyyy mm dd = false →
      dateField t = none ∧ "date".data ∈ missingFields t ∧
        ∀ r, parse_invoice t ≠ Except.ok r) ∧
    (∀ t mm dd yyyy, searchDate t = some (mm, dd, yyyy) →
      pyDateValid yyyy mm dd = true → dateField t = some (isoFormat yyyy mm dd)) ∧
    (searchDate "13/13/2025 but 1/2/2025".data = some (13, 13, 2025) ∧
      pyDateValid 2025 13 13 = false ∧
      dateField "13/13/2025 but 1/2/2025".data = none ∧
      matchDateAt ("1/2/2025".data) = some (1, 2, 2025)) ∧
    dateField "on 3/10/2025".data = some "2025-03-10".data := by
  refine ⟨fun t g => searchFrom_eq_some_iff matchDateAt t g, ?_, ?_,
    ⟨by decide, by decide, by decide, by decide⟩, by decide⟩
  · intro t mm dd yyyy h hv
    have hdf : dateField t = none := by
      unfold dateField
      rw [h]
      simp [hv]
    refine ⟨hdf, ?_, ?_⟩
    · rw [mem_missingFields]
      exact Or.inr (Or.inl ⟨rfl, by rw [hdf]; rfl⟩)
    · intro r hok
      obtain ⟨_, _, f3, _⟩ := parse_invoice_ok_fields t r hok
      rw [hdf] at f3
      cases f3
  · intro t mm dd yyyy h hv
    unfold dateField
    rw [h]
    simp [hv]

/-- C6 witness: the theorem applied at the invalid-first-match text. -/
theorem c6_date_extraction_witness :
    dateField "13/13/2025 but 1/2/2025".data = none ∧
    "date".data ∈ missingFields "13/13/2025 but 1/2/2025".data ∧
    ∀ r, parse_invoice "13/13/2025 but 1/2/2025".data ≠ Except.ok r :=
  c6_date_extraction.2.1 _ 13 13 2025 (by decide) (by decide)

/-- C7.  Description extraction: when the `Description … Amount … USD<digit>`
anchor pair matches, the result is exactly the first line of the captured
between-text that is non-blank after trimming (returned stripped); when the
anchors do not match, or every line in between is blank, the field is
absent.  The concrete cases show the sample table (yields `repellents`), an
all-blank capture (absent), and a text without the anchor pair (absent). -/
theorem c7_description_extraction :
    (∀ t g, searchDescr t = some g →
      find_case_descr t = firstNonBlank (splitLines g)) ∧
    (∀ t, searchDescr t = none → find_case_descr t = none) ∧
    (∀ t g s, searchDescr t = some g →
      ((find_case_descr t = some s ↔
        ∃ pre l post, splitLines g = pre ++ l :: post ∧
          (∀ l2 ∈ pre, pyStripWs l2 = []) ∧ pyStripWs l = s ∧ s ≠ []) ∧
        (find_case_descr t = none ↔ ∀ l ∈ splitLines g, pyStripWs l = []))) ∧
    (find_case_descr "Description Amount\n\nrepellents\nUSD 4000".data =
        some "repellents".data ∧
      searchDescr "Description Amount   USD 4".data = some [' '] ∧
      find_case_descr "Description Amount   USD 4".data = none ∧
      find_case_descr "no table here USD 4".data = none) := by
  have hdef : ∀ t g, searchDescr t = some g →
      find_case_descr t = firstNonBlank (splitLines g) := by
    intro t g h
    unfold find_case_descr
    rw [h]
  refine ⟨hdef, ?_, ?_, by decide, by decide, by decide, by decide⟩
  · intro t h
    unfold find_case_descr
    rw [h]
  · intro t g s h
    rw [hdef t g h]
    exact ⟨firstNonBlank_eq_some_iff (splitLines g) s,
      firstNonBlank_eq_none_iff (splitLines g)⟩

/-- C7 witness: the theorem applied at the sample invoice table. -/
theorem c7_description_extraction_witness :
    find_case_descr "Description Amount\n\nrepellents\nUSD 4000".data =
      firstNonBlank (splitLines "repellents".data) :=
  c7_description_extraction.1 _ _ (by decide)

/-- C5.  Folder naming is a pure function of (date, amount, invoice number):
for date `2025-03-10`, amount `4000.0` and case number `12345` both
`create_case_dir` variants produce the same name containing `25-03`, the
marker `XXX`, `4000` and `12345`; and for every input, no filesystem-illegal
character occurs in the produced name and it has no leading or trailing
space or period. -/
theorem c5_folder_naming :
    (megaFolderName "2025-03-10".data 4000 12345 =
        some "Нова 25-03 XXX 4000 №12345 Хелп".data ∧
      googleFolderName "2025-03-10".data 4000 12345 =
        some "Нова 25-03 XXX 4000 №12345 Хелп".data ∧
      containsSub "25-03".data "Нова 25-03 XXX 4000 №12345 Хелп".data = true ∧
      containsSub "XXX".data "Нова 25-03 XXX 4000 №12345 Хелп".data = true ∧
      containsSub "4000".data "Нова 25-03 XXX 4000 №12345 Хелп".data = true ∧
      containsSub "12345".data "Нова 25-03 XXX 4000 №12345 Хелп".data = true) ∧
    (∀ d a n nm, megaFolderName d a n = some nm →
      (∀ c ∈ FORBIDDEN, c ∉ nm) ∧
      (∀ c, nm.head? = some c → c ≠ ' ' ∧ c ≠ '.') ∧
      (∀ c, nm.getLast? = some c → c ≠ ' ' ∧ c ≠ '.')) ∧
    (∀ d a n nm, googleFolderName d a n = some nm →
      (∀ c ∈ FORBIDDEN, c ∉ nm) ∧
      (∀ c, nm.head? = some c → c ≠ ' ' ∧ c ≠ '.') ∧
      (∀ c, nm.getLast? = some c → c ≠ ' ' ∧ c ≠ '.')) := by
  have hr : pyRound (4000 : ℚ) = 4000 := by
    unfold pyRound
    norm_num
  have htemp : folderTemplate 2025 3 (4000 : ℚ) 12345 =
      "Нова 25-03 XXX 4000 №12345 Хелп".data := by
    unfold folderTemplate
    rw [hr]
    decide
  refine ⟨⟨?_, ?_, by decide, by decide, by decide, by decide⟩, ?_, ?_⟩
  · unfold megaFolderName
    rw [show isoParse "2025-03-10".data = some (2025, 3, 10) from by decide]
    show some (clean_filename (folderTemplate 2025 3 4000 12345)) = _
    rw [htemp]
    decide
  · unfold googleFolderName
    rw [show isoParse "2025-03-10".data = some (2025, 3, 10) from by decide]
    show some (sanitize (folderTemplate 2025 3 4000 12345)) = _
    rw [htemp]
    decide
  · intro d a n nm h
    unfold megaFolderName at h
    cases hiso : isoParse d <;> rw [hiso] at h
    · cases h
    · rename_i v
      obtain ⟨y, m, dd⟩ := v
      injection h with h
      subst h
      refine ⟨fun c hc => mem_clean_filename_not_forbidden _ c hc, ?_, ?_⟩
      · intro c hh
        have := stripSpaceDot_head _ c hh
        simpa using this
      · intro c hh
        have := stripSpaceDot_getLast _ c hh
        simpa using this
  · intro d a n nm h
    unfold googleFolderName at h
    cases hiso : isoParse d <;> rw [hiso] at h
    · cases h
    · rename_i v
      obtain ⟨y, m, dd⟩ := v
      injection h with h
      subst h
      refine ⟨fun c hc => mem_sanitize_not_forbidden _ c hc, ?_, ?_⟩
      · intro c hh
        have := stripSpaceDot_head _ c hh
        simpa using this
      · intro c hh
        have := stripSpaceDot_getLast _ c hh
        simpa using this

/-- C5 witness: the universal part of the theorem applied at the concrete
folder name produced for `(2025-03-10, 4000.0, 12345)`. -/
theorem c5_folder_naming_witness :
    '<' ∉ "Нова 25-03 XXX 4000 №12345 Хелп".data ∧ 'Н' ≠ ' ' ∧ 'Н' ≠ '.' :=
  ⟨(c5_folder_naming.2.1 "2025-03-10".data 4000 12345 _ c5_folder_naming.1.1).1
      '<' (by decide),
    (c5_folder_naming.2.1 "2025-03-10".data 4000 12345 _ c5_folder_naming.1.1).2.1
      'Н' (by decide)⟩

/-- C1 witness: the theorem applied at a concrete complete invoice text and a
concrete incomplete one. -/
theorem c1_all_or_nothing_witness :
    (∃ r, parse_invoice
      "Invoice No. 123\n3/10/2025\nDescription Amount\nrepellents\nTotal amount: USD 4,000.00".data =
        Except.ok r) ∧
    missingFields "no fields at all".data ≠ [] := by
  constructor
  · refine (c1_all_or_nothing _).2.1.mpr ?_
    rw [missingFields_eq_nil_iff]
    refine ⟨by decide, by decide, ?_, by decide⟩
    rw [amountField_isNone_eq]
    decide
  · intro h
    have := (c1_all_or_nothing _).2.1.mpr h
    obtain ⟨r, hr⟩ := this
    obtain ⟨f1, _⟩ := parse_invoice_ok_fields _ r hr
    rw [show invoiceNumberField "no fields at all".data = none from by decide] at f1
    cases f1

/-- C2, counterexample.  The claim asserts that `"4 000,00"`-style grouped
input and `"4,000.00"` normalize to the same numeric value `4000.00`.  On the
code, deleting whitespace and commas from `"4 000,00"` leaves `"400000"`, so
the captured amount `USD 4 000,00` normalizes to `400000.00`, not `4000.00`,
in both normalization paths (`parse_invoice` and
`make_case_dir_v2-1.extract_from_pdf`). -/
theorem c2_grouped_comma_counterexample :
    amountField "Total amount: USD 4 000,00".data = some 400000 ∧
    normalizeAmountV21 "4 000,00".data = some 400000 ∧
    amountField "Total amount: USD 4,000.00".data = some 4000 ∧
    ¬ amountField "Total amount: USD 4 000,00".data =
        amountField "Total amount: USD 4,000.00".data := by
  have h1 : amountField "Total amount: USD 4 000,00".data = some 400000 := by
    rw [amountField_of_shape _ ['4', '0', '0', '0', '0', '0'] [] (by decide),
      decValue_frac0 _ _ 400000 (by decide) (by decide)]
    norm_num
  have h2 : amountField "Total amount: USD 4,000.00".data = some 4000 := by
    rw [amountField_of_shape _ ['4', '0', '0', '0'] ['0', '0'] (by decide),
      decValue_frac0 _ _ 4000 (by decide) (by decide)]
    norm_num
  refine ⟨h1, ?_, h2, ?_⟩
  · rw [normalizeAmountV21_of_shape _ ['4', '0', '0', '0', '0', '0'] [] (by decide),
      decValue_frac0 _ _ 400000 (by decide) (by decide)]
    norm_num
  · rw [h1, h2]
    norm_num

/-- C2, amended.  Amount normalization deletes every character other than a
digit or a dot from the captured number and parses the remainder as a
decimal: it is idempotent on already-clean input (`"4000.00"` → `4000.00`)
and strips comma thousands separators (`"4,000.00"` → `4000.00`), but the
comma-decimal input `"4 000,00"` is read as `400000.00`, in both
normalization paths. -/
theorem c2_amount_normalization :
    amountField "Total amount: USD 4000.00".data = some 4000 ∧
    amountField "Total amount: USD 4,000.00".data = some 4000 ∧
    normalizeAmountV21 "4,000.00".data = some 4000 ∧
    normalizeAmountV21 "4000.00".data = some 4000 ∧
    amountField "Total amount: USD 4 000,00".data = some 400000 ∧
    normalizeAmountV21 "4 000,00".data = some 400000 := by
  refine ⟨?_, ?_, ?_, ?_, ?_, ?_⟩
  · rw [amountField_of_shape _ ['4', '0', '0', '0'] ['0', '0'] (by decide),
      decValue_frac0 _ _ 4000 (by decide) (by decide)]
    norm_num
  · rw [amountField_of_shape _ ['4', '0', '0', '0'] ['0', '0'] (by decide),
      decValue_frac0 _ _ 4000 (by decide) (by decide)]
    norm_num
  · rw [normalizeAmountV21_of_shape _ ['4', '0', '0', '0'] ['0', '0'] (by decide),
      decValue_frac0 _ _ 4000 (by decide) (by decide)]
    norm_num
  · rw [normalizeAmountV21_of_shape _ ['4', '0', '0', '0'] ['0', '0'] (by decide),
      decValue_frac0 _ _ 4000 (by decide) (by decide)]
    norm_num
  · rw [amountField_of_shape _ ['4', '0', '0', '0', '0', '0'] [] (by decide),
      decValue_frac0 _ _ 400000 (by decide) (by decide)]
    norm_num
  · rw [normalizeAmountV21_of_shape _ ['4', '0', '0', '0', '0', '0'] [] (by decide),
      decValue_frac0 _ _ 400000 (by decide) (by decide)]
    norm_num

/-- C3.  The invoice-number fallback is consulted only when the primary
`Invoice No` pattern finds no match; the fallback's leading zeros are
stripped (`"00012345"` → `"12345"`); when both patterns match, the primary's
capture is returned. -/
theorem c3_invoice_number_fallback :
    (∀ t g, searchInvNo t = some g → invoiceNumberField t = some g) ∧
    (∀ t w, searchInvNo t = none → searchFbk t = some w →
      invoiceNumberField t = some (w.dropWhile (· = '0'))) ∧
    (∀ t, searchInvNo t = none → searchFbk t = none → invoiceNumberField t = none) ∧
    invoiceNumberField "00012345".data = some "12345".data ∧
    (searchInvNo "00012345 Invoice No. 00099999".data = some "99999".data ∧
      searchFbk "00012345 Invoice No. 00099999".data = some "00012345".data ∧
      invoiceNumberField "00012345 Invoice No. 00099999".data = some "99999".data) := by
  refine ⟨?_, ?_, ?_, by decide, by decide, by decide, by decide⟩
  · intro t g h
    unfold invoiceNumberField
    rw [h]
  · intro t w h1 h2
    unfold invoiceNumberField
    rw [h1, h2]
  · intro t h1 h2
    unfold invoiceNumberField
    rw [h1, h2]

/-- C3 witness: the theorem applied at concrete inputs. -/
theorem c3_invoice_number_fallback_witness :
    invoiceNumberField "Invoice No. 555 x".data = some "555".data ∧
    invoiceNumberField "case 00011222".data = some "11222".data := by
  constructor
  · exact c3_invoice_number_fallback.1 _ _ (by decide)
  · rw [c3_invoice_number_fallback.2.1 "case 00011222".data "00011222".data
      (by decide) (by decide)]
    decide

/-- C9.  When the only invoice-number evidence is an all-zero fallback token
(no primary match), `lstrip("0")` leaves the empty string, so
`invoice_number` is reported missing and `parse_invoice` cannot return a
record. -/
theorem c9_all_zero_fallback_is_missing (t : List Char)
    (h1 : searchInvNo t = none)
    (h2 : ∃ w, searchFbk t = some w ∧ w.all (· = '0')) :
    invoiceNumberField t = some [] ∧
    "invoice_number".data ∈ missingFields t ∧
    ∀ r, parse_invoice t ≠ Except.ok r := by
  obtain ⟨w, hw, hall⟩ := h2
  have hempty : w.dropWhile (fun c => c = '0') = [] := by
    rw [List.dropWhile_eq_nil_iff]
    intro x hx
    simpa using List.all_eq_true.mp hall x hx
  have hinv : invoiceNumberField t = some [] := by
    unfold invoiceNumberField
    rw [h1, hw]
    simp [hempty]
  refine ⟨hinv, ?_, ?_⟩
  · unfold missingFields
    have : strMissing (invoiceNumberField t) = true := by rw [hinv]; rfl
    rw [this]
    simp
  · intro r h
    unfold parse_invoice at h
    rw [hinv] at h
    cases hd : dateField t <;> rw [hd] at h <;>
      cases ha : amountField t <;> rw [ha] at h <;>
        cases hc : find_case_descr t <;> rw [hc] at h <;> simp at h

/-- C9 witness: the theorem applied at a concrete text whose only
invoice-number evidence is the bare token `00000000`. -/
theorem c9_all_zero_fallback_witness :
    invoiceNumberField "approved 00000000 today".data = some [] ∧
    "invoice_number".data ∈ missingFields "approved 00000000 today".data ∧
    ∀ r, parse_invoice "approved 00000000 today".data ≠ Except.ok r :=
  c9_all_zero_fallback_is_missing _ (by decide) ⟨"00000000".data, by decide, by decide⟩

end InvoicePipeline
